import Mathlib

set_option maxRecDepth 20000

namespace StatCom

/-! Shallow embedding of the text-segmentation-and-extraction core of the
StatCom-MCYJ-downloader repository (src/parse_licensing_rules.py,
src/parse_parquet_violations.py, src/pdf_parsing/extract_document_info.py).
Text is modelled as `List Char`; each Python regular expression used by the
code is embedded as an executable matcher with the deterministic backtracking
behaviour of the concrete pattern (analysed case by case, since the specific
patterns used by the code admit only maximal-munch behaviour, noted inline).
Inputs in the theorems below are ASCII, matching the extracted PDF text the
code consumes, so ASCII semantics of `\s`, `\w`, `str.strip`, `str.title`,
`str.isupper` are embedded. -/

/-- Python `\s` on ASCII text: space, tab, newline, carriage return, vertical
tab, form feed. -/
def pws (c : Char) : Bool :=
  c == ' ' || c == '\t' || c == '\n' || c == '\r' ||
  c == Char.ofNat 11 || c == Char.ofNat 12

/-- Python `\d`. -/
def isDigitC (c : Char) : Bool := '0' ≤ c && c ≤ '9'

/-- ASCII lowercase letter, Python `[a-z]` without IGNORECASE. -/
def isLowerAl (c : Char) : Bool := 'a' ≤ c && c ≤ 'z'

/-- ASCII uppercase letter. -/
def isUpperAl (c : Char) : Bool := 'A' ≤ c && c ≤ 'Z'

/-- ASCII letter. -/
def isAlphaC (c : Char) : Bool := isLowerAl c || isUpperAl c

/-- Python `\w` on ASCII text. -/
def isWordC (c : Char) : Bool := isAlphaC c || isDigitC c || c == '_'

/-- Python `[A-Z0-9]` under `re.IGNORECASE`, i.e. ASCII alphanumeric. -/
def isAlnumC (c : Char) : Bool := isAlphaC c || isDigitC c

/-- Lowercase roman numeral letters, the class `[ivxlcdm]`. -/
def isRomanC (c : Char) : Bool :=
  c == 'i' || c == 'v' || c == 'x' || c == 'l' || c == 'c' || c == 'd' || c == 'm'

def toLowerC (c : Char) : Char := c.toLower

def toUpperC (c : Char) : Char := c.toUpper

def lowerAll (s : List Char) : List Char := s.map toLowerC

def upperAll (s : List Char) : List Char := s.map toUpperC

/-- Length of the maximal prefix of `s` whose characters satisfy `p`
(the amount a greedy character class consumes). -/
def munch (p : Char → Bool) (s : List Char) : Nat := (s.takeWhile p).length

/-- Python `str.strip()` from the left. -/
def stripL (s : List Char) : List Char := s.dropWhile pws

/-- Python `str.strip()`. -/
def stripB (s : List Char) : List Char := ((s.dropWhile pws).reverse.dropWhile pws).reverse

/-- Case-sensitive "the pattern is a prefix of s". -/
def startsW : List Char → List Char → Bool
  | [], _ => true
  | _ :: _, [] => false
  | p :: ps, c :: cs => p == c && startsW ps cs

/-- Case-insensitive prefix test (re.IGNORECASE literal matching). -/
def startsWCI : List Char → List Char → Bool
  | [], _ => true
  | _ :: _, [] => false
  | p :: ps, c :: cs => toLowerC p == toLowerC c && startsWCI ps cs

/-- Index of the leftmost occurrence of the literal `pat` in `s`
(Python `re.search` on a plain literal / `str.find`). -/
def findLitIdx (pat : List Char) : List Char → Option Nat
  | [] => if startsW pat [] then some 0 else none
  | c :: t =>
    if startsW pat (c :: t) then some 0
    else (findLitIdx pat t).map (fun n => n + 1)

/-- Case-insensitive variant of `findLitIdx`. -/
def findLitIdxCI (pat : List Char) : List Char → Option Nat
  | [] => if startsWCI pat [] then some 0 else none
  | c :: t =>
    if startsWCI pat (c :: t) then some 0
    else (findLitIdxCI pat t).map (fun n => n + 1)

/-- Python `pat in s` (case-sensitive substring test). -/
def containsLit (pat s : List Char) : Bool := (findLitIdx pat s).isSome

/-- Case-insensitive substring test (re.IGNORECASE search of a literal). -/
def containsCI (pat s : List Char) : Bool := (findLitIdxCI pat s).isSome

/-- Index of the first occurrence of a single character. -/
def firstIdxOf (c : Char) : List Char → Option Nat
  | [] => none
  | a :: t => if a == c then some 0 else (firstIdxOf c t).map (fun n => n + 1)

/-- Index of the last occurrence of a single character. -/
def lastIdxOf (c : Char) : List Char → Option Nat
  | [] => none
  | a :: t =>
    match lastIdxOf c t with
    | some k => some (k + 1)
    | none => if a == c then some 0 else none

/-- Index of the last character that is not a newline. -/
def lastIdxNotNl : List Char → Option Nat
  | [] => none
  | a :: t =>
    match lastIdxNotNl t with
    | some k => some (k + 1)
    | none => if a == '\n' then none else some 0

/-- Generic `re.search` driver: try the matcher at every position from the
left, returning the first success (our matchers never match after failing
at every position). -/
def searchMAux {α : Type} (m : List Char → Option α) : Nat → List Char → Option α
  | 0, _ => none
  | fuel + 1, s =>
    match m s with
    | some r => some r
    | none =>
      match s with
      | [] => none
      | _ :: t => searchMAux m fuel t

def searchM {α : Type} (m : List Char → Option α) (s : List Char) : Option α :=
  searchMAux m (s.length + 1) s

/-- Boolean search: does the predicate hold at some suffix position. -/
def existsAtAux (p : List Char → Bool) : Nat → List Char → Bool
  | 0, _ => false
  | fuel + 1, s =>
    p s ||
      (match s with
       | [] => false
       | _ :: t => existsAtAux p fuel t)

def existsAt (p : List Char → Bool) (s : List Char) : Bool :=
  existsAtAux p (s.length + 1) s

/-- One regex match: absolute start, absolute end (exclusive), and the
relevant captured text (group 1 where the code uses it, otherwise group 0). -/
structure MatchR where
  start : Nat
  stop : Nat
  cap : List Char
deriving DecidableEq, Repr

/-- Line-start flag after consuming `consumed`: true exactly when the last
consumed character is a newline (unchanged when nothing was consumed). -/
def lsAfter (ls : Bool) (consumed : List Char) : Bool :=
  match consumed.getLast? with
  | some c => c == '\n'
  | none => ls

/-- Generic `re.finditer` driver.  The matcher receives a line-start flag
(for `(?m)^`-anchored patterns) and the current suffix; it returns the length
consumed and the capture.  Matches are non-overlapping and scanning resumes
at each match's end, as in Python. -/
def finditerAux (m : Bool → List Char → Option (Nat × List Char)) :
    Nat → Bool → Nat → List Char → List MatchR
  | 0, _, _, _ => []
  | fuel + 1, ls, off, s =>
    match m ls s, s with
    | some (len, cap), _ =>
      ⟨off, off + len, cap⟩ ::
        finditerAux m fuel (lsAfter ls (s.take (max len 1))) (off + max len 1)
          (s.drop (max len 1))
    | none, [] => []
    | none, c :: t => finditerAux m fuel (c == '\n') (off + 1) t

def finditer (m : Bool → List Char → Option (Nat × List Char)) (s : List Char) :
    List MatchR :=
  finditerAux m (s.length + 1) true 0 s

/-- Generic `re.sub` driver replacing every match with `repl`, resuming the
scan after each replacement (the patterns it is used with never match the
empty string). -/
def resubAux (m : Bool → List Char → Option Nat) (repl : List Char) :
    Nat → Bool → List Char → List Char
  | 0, _, s => s
  | fuel + 1, ls, s =>
    match m ls s with
    | some len =>
      let len' := max len 1
      let consumed := s.take len'
      let ls' := match consumed.getLast? with
                 | some c => c == '\n'
                 | none => ls
      repl ++ resubAux m repl fuel ls' (s.drop len')
    | none =>
      match s with
      | [] => []
      | c :: t => c :: resubAux m repl fuel (c == '\n') t

def resub (m : Bool → List Char → Option Nat) (repl : List Char) (s : List Char) :
    List Char :=
  resubAux m repl (s.length + 1) true s

/-! Embedding of src/parse_licensing_rules.py. -/

/-- Matcher for the page-number footer pattern `(?m)^\s*Page\s*\d+\s*$`
used by the page cleaning step (replaced by the empty string).
Deterministic: each greedy `\s*`/`\d+` run is followed by a character it
cannot contain, except the trailing `\s*$` where the greedy engine backtracks
to the longest run position followed by a newline or the end of input. -/
def footerPageM (ls : Bool) (s : List Char) : Option Nat :=
  if !ls then none else
  let w := munch pws s
  let s1 := s.drop w
  if !(startsW (("Page").toList) s1) then none else
  let s2 := s1.drop 4
  let w2 := munch pws s2
  let s3 := s2.drop w2
  let d := munch isDigitC s3
  if d == 0 then none else
  let s4 := s3.drop d
  let run := s4.takeWhile pws
  if (s4.drop run.length).isEmpty then some (w + 4 + w2 + d + run.length)
  else
    match lastIdxOf ('\n') run with
    | some k => some (w + 4 + w2 + d + k)
    | none => none

/-- Matcher for `(?m)^\s*Courtesy of Michigan Administrative Rules\s*$`. -/
def footerCourtesyM (ls : Bool) (s : List Char) : Option Nat :=
  if !ls then none else
  let w := munch pws s
  let s1 := s.drop w
  let lit := ("Courtesy of Michigan Administrative Rules").toList
  if !(startsW lit s1) then none else
  let s2 := s1.drop lit.length
  let run := s2.takeWhile pws
  if (s2.drop run.length).isEmpty then some (w + lit.length + run.length)
  else
    match lastIdxOf ('\n') run with
    | some k => some (w + lit.length + k)
    | none => none

/-- Matcher for `\n{3,}` (collapsed to exactly two newlines). -/
def nl3M (_ : Bool) (s : List Char) : Option Nat :=
  let n := munch (fun c => c == '\n') s
  if 3 ≤ n then some n else none

/-- Page cleaning in `parse_rules_from_pages` (lines 31-40): remove footer
lines, collapse runs of three or more newlines to two, strip the page. -/
def cleanPage (p : List Char) : List Char :=
  stripB (resub nl3M (("\n\n").toList) (resub footerCourtesyM [] (resub footerPageM [] p)))

/-- Join a list of page texts with single newlines (Python `'\n'.join`). -/
def joinNL : List (List Char) → List Char
  | [] => []
  | [x] => x
  | x :: y :: t => x ++ '\n' :: joinNL (y :: t)

/-- Page normalization of `parse_rules_from_pages` (lines 31-43): drop empty
pages, clean each page, join with newlines. -/
def normalizePages (pages : List (List Char)) : List Char :=
  joinNL ((pages.filter (fun p => !p.isEmpty)).map cleanPage)

/-- Matcher for the rule-header regex
`(?m)^[ \t]*R\s*(\d+\.\d+)\b[^\n]*\.` (line 49).  The `\b` after the second
digit run can never be rescued by backtracking (a shorter `\d+` ends before a
digit, which is a word character), and the greedy `[^\n]*\.` ends at the last
period on the line holding the end of the number.  The capture is the dotted
rule number. -/
def ruleHeaderM (ls : Bool) (s : List Char) : Option (Nat × List Char) :=
  if !ls then none else
  let i0 := munch (fun c => c == ' ' || c == '\t') s
  match s.drop i0 with
  | 'R' :: s2 =>
    let w := munch pws s2
    let s3 := s2.drop w
    let d1s := s3.takeWhile isDigitC
    if d1s.isEmpty then none else
    match s3.drop d1s.length with
    | '.' :: s5 =>
      let d2s := s5.takeWhile isDigitC
      if d2s.isEmpty then none else
      let s6 := s5.drop d2s.length
      if (match s6 with | [] => false | c :: _ => isWordC c) then none else
      let line := s6.takeWhile (fun c => !(c == '\n'))
      match lastIdxOf ('.') line with
      | none => none
      | some k =>
        some (i0 + 1 + w + d1s.length + 1 + d2s.length + (k + 1),
              d1s ++ '.' :: d2s)
    | _ => none
  | _ => none

/-- Anchored `re.sub(r'^\s*R\s*\d+\.\d+\s*', '', text)` (lines 83 and 88):
without `(?m)` the `^` only matches at the start, so at most the leading
header token is removed. -/
def stripLeadRuleNum (s : List Char) : List Char :=
  let w := munch pws s
  match s.drop w with
  | 'R' :: t =>
    let w2 := munch pws t
    let t2 := t.drop w2
    let d1 := munch isDigitC t2
    if d1 == 0 then s else
    match t2.drop d1 with
    | '.' :: t3 =>
      let d2 := munch isDigitC t3
      if d2 == 0 then s else
      let t4 := t3.drop d2
      t4.drop (munch pws t4)
    | _ => s
  | _ => s

/-- Matcher for `\bRule\s+(\d+)\b` (line 94); takes the previous-character
word flag for the leading boundary. -/
def ruleLabelAt (prevWord : Bool) (s : List Char) : Option (List Char) :=
  if prevWord then none else
  if !(startsW (("Rule").toList) s) then none else
  let t := s.drop 4
  let w := munch pws t
  if w == 0 then none else
  let t2 := t.drop w
  let ds := t2.takeWhile isDigitC
  if ds.isEmpty then none else
  match t2.drop ds.length with
  | [] => some ds
  | c :: _ => if isWordC c then none else some ds

def ruleLabelSearchAux : Nat → Bool → List Char → Option (List Char)
  | 0, _, _ => none
  | fuel + 1, pw, s =>
    match ruleLabelAt pw s with
    | some cap => some cap
    | none =>
      match s with
      | [] => none
      | c :: t => ruleLabelSearchAux fuel (isWordC c) t

def ruleLabelSearch (s : List Char) : Option (List Char) :=
  ruleLabelSearchAux (s.length + 1) false s

/-- Python `rule_num.split('.')[-1]` (line 98). -/
def afterLastDot (s : List Char) : List Char :=
  match lastIdxOf ('.') s with
  | some k => s.drop (k + 1)
  | none => s

/-- Search for `History:\s*(.+?\.)` with `re.S` (line 103).  The regex starts
with a literal, so matches can only start at occurrences of `History:`; if
the attempt at the first occurrence fails (no usable period ahead), every
later occurrence sees a subset of the remaining periods and fails as well, so
only the first occurrence needs to be tried.  At that occurrence the greedy
`\s*` takes the maximal whitespace run that still leaves at least one
character before a period for the lazy `.+?`, which then stops at the first
available period.  Returns (start, group 1, end). -/
def historySearch (body : List Char) : Option (Nat × List Char × Nat) :=
  match findLitIdx (("History:").toList) body with
  | none => none
  | some i =>
    let tail := body.drop (i + 8)
    let wsMax := munch pws tail
    match firstIdxOf ('.') tail with
    | none => none
    | some p =>
      if wsMax + 1 ≤ p then
        some (i, (tail.drop wsMax).take (p - wsMax + 1), i + 8 + p + 1)
      else
        match firstIdxOf ('.') (tail.drop (wsMax + 1)) with
        | some r => some (i, (tail.drop wsMax).take (r + 2), i + 8 + wsMax + 1 + r + 1)
        | none =>
          if 1 ≤ wsMax then some (i, (tail.drop (wsMax - 1)).take 2, i + 8 + wsMax + 1)
          else none

/-- History extraction and removal (lines 101-108): store the stripped
capture, splice the match span out of the body and strip the result. -/
def extractHistory (rule_text : List Char) : Option (List Char) × List Char :=
  match historySearch rule_text with
  | some (st, cap, sp) => (some (stripB cap), stripB (rule_text.take st ++ rule_text.drop sp))
  | none => (none, rule_text)

/-- Matcher for a numeric condition token `\(\d+\)`; the capture is the
token with parentheses removed, as computed by `re.sub(r'[()\s]', '', tid)`. -/
def numTokM (_ : Bool) (s : List Char) : Option (Nat × List Char) :=
  match s with
  | '(' :: t =>
    let ds := t.takeWhile isDigitC
    if ds.isEmpty then none else
    match t.drop ds.length with
    | ')' :: _ => some (ds.length + 2, ds)
    | _ => none
  | _ => none

/-- Matcher for a lettered condition token `\([a-z]\)`. -/
def letTokM (_ : Bool) (s : List Char) : Option (Nat × List Char) :=
  match s with
  | '(' :: c :: ')' :: _ => if isLowerAl c then some (3, [c]) else none
  | _ => none

/-- Matcher for a roman-numeral condition token `\([ivxlcdm]+\)`. -/
def romTokM (_ : Bool) (s : List Char) : Option (Nat × List Char) :=
  match s with
  | '(' :: t =>
    let rs := t.takeWhile isRomanC
    if rs.isEmpty then none else
    match t.drop rs.length with
    | ')' :: _ => some (rs.length + 2, rs)
    | _ => none
  | _ => none

/-- Content slices of `split_by_token` (lines 67-73): each part's text runs
from its token's end to the next token's start (or the end of the text),
stripped. -/
def splitParts (text : List Char) : List MatchR → List (List Char × List Char)
  | [] => []
  | [m] => [(m.cap, stripB (text.drop m.stop))]
  | m :: m2 :: rest =>
    (m.cap, stripB ((text.drop m.stop).take (m2.start - m.stop))) :: splitParts text (m2 :: rest)

/-- `split_by_token` (lines 57-74): `None` when the token pattern does not
occur, otherwise the list of (id, content) parts. -/
def split_by_token (tokM : Bool → List Char → Option (Nat × List Char))
    (text : List Char) : Option (List (List Char × List Char)) :=
  if (finditer tokM text).isEmpty then none
  else some (splitParts text (finditer tokM text))

/-- A parsed condition node: id, text, optional nested sub-conditions
(the dicts built in lines 110-141). -/
inductive Condition where
  | mk (cid : List Char) (ctext : List Char) (sub : Option (List Condition))

def Condition.cid : Condition → List Char
  | .mk i _ _ => i

def Condition.ctext : Condition → List Char
  | .mk _ t _ => t

def Condition.sub : Condition → Option (List Condition)
  | .mk _ _ s => s

/-- Build a lettered condition: attach roman sub-parts when present
(lines 121-124 and 137-141). -/
def buildLetter (lp : List Char × List Char) : Condition :=
  match split_by_token romTokM lp.2 with
  | some rs => .mk lp.1 lp.2 (some (rs.map (fun r => .mk r.1 r.2 none)))
  | none => .mk lp.1 lp.2 none

/-- Build a numeric condition: attach lettered sub-parts when present, else
roman sub-parts when present (lines 117-131). -/
def buildNumeric (np : List Char × List Char) : Condition :=
  match split_by_token letTokM np.2 with
  | some ls => .mk np.1 np.2 (some (ls.map buildLetter))
  | none =>
    match split_by_token romTokM np.2 with
    | some rs => .mk np.1 np.2 (some (rs.map (fun r => .mk r.1 r.2 none)))
    | none => .mk np.1 np.2 none

/-- Condition parsing (lines 110-141): numeric split first, else lettered
split at top level; returns the ordered condition list. -/
def buildConditions (rule_text : List Char) : List Condition :=
  match split_by_token numTokM rule_text with
  | some nps => nps.map buildNumeric
  | none =>
    match split_by_token letTokM rule_text with
    | some lps => lps.map buildLetter
    | none => []

/-- One parsed rule record (the dict of lines 143-149). -/
structure Rule where
  text : List Char
  rule_name : List Char
  rule_label : List Char
  conditions : List Condition
  history : Option (List Char)

/-- Python-dict insertion keyed by rule number: overwrite in place when the
key exists, append otherwise. -/
def insertOW : List (List Char × Rule) → List Char → Rule → List (List Char × Rule)
  | [], k, v => [(k, v)]
  | (k', v') :: t, k, v =>
    if k = k' then (k, v) :: t else (k', v') :: insertOW t k v

/-- Trailing-period removal for the header rest (lines 89-90). -/
def dropTrailingDot (s : List Char) : List Char :=
  match s.getLast? with
  | some c => if c == '.' then stripB s.dropLast else s
  | none => s

/-- Build one Rule from its raw span (lines 76-149): the span runs from the
header match's start to the next header's start (or the end of the text). -/
def ruleFromSpan (full : List Char) (m : MatchR) (endPos : Nat) : Rule :=
  let raw := stripB ((full.drop m.start).take (endPos - m.start))
  let rt0 := stripB (stripLeadRuleNum raw)
  let header_line := (full.drop m.start).take (m.stop - m.start)
  let rule_name := dropTrailingDot (stripB (stripLeadRuleNum header_line))
  let rule_label :=
    match ruleLabelSearch raw with
    | some d => (("Rule ").toList) ++ d
    | none => (("Rule ").toList) ++ afterLastDot m.cap
  let hr := extractHistory rt0
  Rule.mk hr.2 rule_name rule_label (buildConditions hr.2) hr.1

def parseRulesAux (full : List Char) :
    List MatchR → List (List Char × Rule) → List (List Char × Rule)
  | [], acc => acc
  | [m], acc => insertOW acc m.cap (ruleFromSpan full m full.length)
  | m :: m2 :: rest, acc =>
    parseRulesAux full (m2 :: rest) (insertOW acc m.cap (ruleFromSpan full m m2.start))

/-- `parse_rules_from_pages` (lines 14-151): normalize the pages, find the
rule headers, and build the keyed rule mapping (later duplicate rule numbers
overwrite earlier ones). -/
def parse_rules_from_pages (pages : List (List Char)) : List (List Char × Rule) :=
  let full := normalizePages pages
  parseRulesAux full (finditer ruleHeaderM full) []

/-! Embedding of `extract_violations` (src/parse_parquet_violations.py,
lines 214-303).  All patterns here are compiled with `re.IGNORECASE`. -/

/-- Matcher for strategy 1's header pattern
`Rule Code & (?:CPA|CCI) Rule\s+(\d+\.\d+[^\n]*)` (line 221).  The capture
keeps the original characters of the input. -/
def ruleCodeM (_ : Bool) (s : List Char) : Option (Nat × List Char) :=
  if !(startsWCI (("rule code & ").toList) s) then none else
  let s1 := s.drop 12
  if !(startsWCI (("cpa").toList) s1 || startsWCI (("cci").toList) s1) then none else
  let s2 := s1.drop 3
  if !(startsWCI ((" rule").toList) s2) then none else
  let s3 := s2.drop 5
  let w := munch pws s3
  if w == 0 then none else
  let s4 := s3.drop w
  let d1s := s4.takeWhile isDigitC
  if d1s.isEmpty then none else
  match s4.drop d1s.length with
  | '.' :: s5 =>
    let d2s := s5.takeWhile isDigitC
    if d2s.isEmpty then none else
    let restLine := (s5.drop d2s.length).takeWhile (fun c => !(c == '\n'))
    some (12 + 3 + 5 + w + d1s.length + 1 + d2s.length + restLine.length,
          d1s ++ '.' :: d2s ++ restLine)
  | _ => none

/-- Shared tail of the `R 400.` and `APPLICABLE RULE` citation patterns:
`\d+[a-z]?(?:\([^\)]+\))?` under IGNORECASE ( `[a-z]` therefore also matches
uppercase).  Returns the consumed length and the consumed characters. -/
def citeTailM (s : List Char) : Option (Nat × List Char) :=
  let ds := s.takeWhile isDigitC
  if ds.isEmpty then none else
  let s1 := s.drop ds.length
  let letterPart :=
    match s1 with
    | c :: _ => if isAlphaC c then [c] else []
    | [] => []
  let s2 := s1.drop letterPart.length
  let parenPart :=
    match s2 with
    | '(' :: t =>
      let inner := t.takeWhile (fun c => !(c == ')'))
      if inner.isEmpty then []
      else match t.drop inner.length with
        | ')' :: _ => '(' :: inner ++ [')']
        | _ => []
    | _ => []
  some (ds.length + letterPart.length + parenPart.length, ds ++ letterPart ++ parenPart)

/-- Matcher for strategy 1b's pattern
`APPLICABLE RULE\s+R\s+(400\.\d+[a-z]?(?:\([^\)]+\))?)` (line 253). -/
def applicableM (_ : Bool) (s : List Char) : Option (Nat × List Char) :=
  if !(startsWCI (("applicable rule").toList) s) then none else
  let s1 := s.drop 15
  let w1 := munch pws s1
  if w1 == 0 then none else
  match s1.drop w1 with
  | c :: s3 =>
    if !(c == 'R' || c == 'r') then none else
    let w2 := munch pws s3
    if w2 == 0 then none else
    let s4 := s3.drop w2
    if !(startsW (("400.").toList) s4) then none else
    match citeTailM (s4.drop 4) with
    | some (tl, tc) =>
      some (15 + w1 + 1 + w2 + 4 + tl, (s4.take 4) ++ tc)
    | none => none
  | [] => none

/-- Matcher for strategy 2's pattern `R\s+400\.\d+[a-z]?(?:\([^\)]+\))?`
(line 270); the capture is the whole match (group 0), original case. -/
def r400M (_ : Bool) (s : List Char) : Option (Nat × List Char) :=
  match s with
  | c :: t =>
    if !(c == 'R' || c == 'r') then none else
    let w := munch pws t
    if w == 0 then none else
    let t2 := t.drop w
    if !(startsW (("400.").toList) t2) then none else
    match citeTailM (t2.drop 4) with
    | some (tl, tc) =>
      some (1 + w + 4 + tl, c :: (t.take w) ++ (t2.take 4) ++ tc)
    | none => none
  | [] => none

/-- Matcher for strategy 3's pattern `MCL\s+\d+\.\d+[a-z]?` (line 287);
the capture is the whole match (group 0). -/
def mclM (_ : Bool) (s : List Char) : Option (Nat × List Char) :=
  if !(startsWCI (("mcl").toList) s) then none else
  let t := s.drop 3
  let w := munch pws t
  if w == 0 then none else
  let t2 := t.drop w
  let d1s := t2.takeWhile isDigitC
  if d1s.isEmpty then none else
  match t2.drop d1s.length with
  | '.' :: t3 =>
    let d2s := t3.takeWhile isDigitC
    if d2s.isEmpty then none else
    let letterPart :=
      match t3.drop d2s.length with
      | c :: _ => if isAlphaC c then [c] else []
      | [] => []
    some (3 + w + d1s.length + 1 + d2s.length + letterPart.length,
          (s.take 3) ++ (t.take w) ++ d1s ++ '.' :: d2s ++ letterPart)
  | _ => none

/-- Test at one position for `Conclusion\s+(?:Repeat\s+)?Violation
Established` (line 244); the optional `Repeat\s+` group is tried greedily
but for a boolean search both branches can simply be disjoined. -/
def conclusion1At (s : List Char) : Bool :=
  startsWCI (("conclusion").toList) s &&
  (let t := s.drop 10
   let w := munch pws t
   if w == 0 then false else
   let t2 := t.drop w
   (startsWCI (("repeat").toList) t2 &&
    (let t3 := t2.drop 6
     let w2 := munch pws t3
     decide (1 ≤ w2) && startsWCI (("violation established").toList) (t3.drop w2))) ||
   startsWCI (("violation established").toList) t2)

def conclusion1Search (s : List Char) : Bool := existsAt conclusion1At s

/-- Search for `Analysis.*?violation` with IGNORECASE and DOTALL (line 246):
a match exists iff "violation" occurs at or after the end of the leftmost
"analysis" occurrence. -/
def analysisViolSearch (s : List Char) : Bool :=
  match findLitIdxCI (("analysis").toList) s with
  | none => false
  | some i => containsCI (("violation").toList) (s.drop (i + 8))

/-- Search for the negating phrases
`is not violated|not in violation|no violation` (lines 248, 282, 299). -/
def negSearch (s : List Char) : Bool :=
  containsCI (("is not violated").toList) s ||
  containsCI (("not in violation").toList) s ||
  containsCI (("no violation").toList) s

/-- Test at one position for `CONCLUSION:\s*VIOLATION ESTABLISHED`
(line 265). -/
def conclusion2At (s : List Char) : Bool :=
  startsWCI (("conclusion:").toList) s &&
  (let t := s.drop 11
   startsWCI (("violation established").toList) (t.drop (munch pws t)))

def conclusion2Search (s : List Char) : Bool := existsAt conclusion2At s

/-- Test at one position for the tail alternative `not.*compliance` of the
positive-language pattern; `.` does not cross newlines. -/
def notComplianceAt (s : List Char) : Bool :=
  startsWCI (("not").toList) s &&
  containsCI (("compliance").toList) ((s.drop 3).takeWhile (fun c => !(c == '\n')))

/-- Search for `violation|violated|non-compliance|not.*compliance`
(lines 281, 298). -/
def positiveSearch (s : List Char) : Bool :=
  containsCI (("violation").toList) s ||
  containsCI (("violated").toList) s ||
  containsCI (("non-compliance").toList) s ||
  existsAt notComplianceAt s

/-- Slice `text[a:b]` for absolute indices. -/
def ctxSpan (text : List Char) (a b : Nat) : List Char :=
  (text.drop a).take (b - a)

/-- Symmetric context window `text[max(0, start-500) : min(end+500, len)]`
used by strategies 2 and 3 (lines 276-278, 293-295). -/
def ctxAround (text : List Char) (st sp : Nat) : List Char :=
  ctxSpan text (st - 500) (min (sp + 500) text.length)

/-- Strategy 1's per-occurrence context windows (lines 229-240): each
window runs to the next header match's start; the last runs 50,000
characters ahead (or to the end). -/
def strat1CtxList (text : List Char) : List MatchR → List (List Char × List Char)
  | [] => []
  | [m] => [(ctxSpan text m.start (min (m.start + 50000) text.length), m.cap)]
  | m :: m2 :: rest =>
    (ctxSpan text m.start m2.start, m.cap) :: strat1CtxList text (m2 :: rest)

/-- Strategy 1's per-occurrence contribution (lines 242-249): record
"Rule <ref>" when the conclusion phrase appears, or when analysis-violation
language appears with no negating phrase in the same window.  No
deduplication guard in this strategy. -/
def strat1Contrib (ctx cap : List Char) : List (List Char) :=
  if conclusion1Search ctx then [(("Rule ").toList) ++ stripB cap]
  else if analysisViolSearch ctx && !negSearch ctx then [(("Rule ").toList) ++ stripB cap]
  else []

def strat1Cat : List (List Char × List Char) → List (List Char)
  | [] => []
  | p :: t => strat1Contrib p.1 p.2 ++ strat1Cat t

/-- All references recorded by strategy 1 for a document. -/
def strat1Refs (text : List Char) : List (List Char) :=
  strat1Cat (strat1CtxList text (finditer ruleCodeM text))

/-- The deduplication guard `rule_ref not in [v for v in violations if
rule_ref in v]` (lines 266, 283, 300): true when the reference may be
appended. -/
def dedupGuard (violations : List (List Char)) (ref : List Char) : Bool :=
  !(decide (ref ∈ violations.filter (fun v => containsLit ref v)))

/-- Guarded append shared by strategies 1b, 2 and 3: append the reference
when the strategy's condition holds and the guard admits it. -/
def gAdd (c : MatchR → Bool) (r : MatchR → List Char)
    (vs : List (List Char)) (m : MatchR) : List (List Char) :=
  if c m then (if dedupGuard vs (r m) then vs ++ [r m] else vs) else vs

/-- Strategy 1b (lines 251-267): `APPLICABLE RULE` occurrences with a
3,000-character forward window and the verbatim SIR conclusion phrase. -/
def strat1b (text : List Char) (acc : List (List Char)) : List (List Char) :=
  (finditer applicableM text).foldl
    (gAdd (fun m => conclusion2Search (ctxSpan text m.start (min (m.start + 3000) text.length)))
          (fun m => (("R ").toList) ++ stripB m.cap)) acc

/-- Strategy 2 (lines 269-284): bare `R 400.` citations with a symmetric
500-character window, positive language required, negation suppressing. -/
def strat2 (text : List Char) (acc : List (List Char)) : List (List Char) :=
  (finditer r400M text).foldl
    (gAdd (fun m => positiveSearch (ctxAround text m.start m.stop) &&
                    !negSearch (ctxAround text m.start m.stop))
          (fun m => stripB m.cap)) acc

/-- Strategy 3 (lines 286-301): `MCL` citations, same window and checks as
strategy 2. -/
def strat3 (text : List Char) (acc : List (List Char)) : List (List Char) :=
  (finditer mclM text).foldl
    (gAdd (fun m => positiveSearch (ctxAround text m.start m.stop) &&
                    !negSearch (ctxAround text m.start m.stop))
          (fun m => stripB m.cap)) acc

/-- `extract_violations` (lines 214-303): the three strategies run in order
over the full text, sharing one accumulating list. -/
def extract_violations (text : List Char) : List (List Char) :=
  strat3 text (strat2 text (strat1b text (strat1Refs text)))

/-! Embedding of the field extractors shared by
src/parse_parquet_violations.py and src/pdf_parsing/extract_document_info.py
(the two files are textually identical for every extractor except
`extract_inspection_date`, embedded in both variants below). -/

/-- The `re.sub(r'\s+', ' ', s)` whitespace collapse. -/
def wsCollapseAux : Nat → List Char → List Char
  | 0, s => s
  | _ + 1, [] => []
  | fuel + 1, c :: t =>
    if pws c then ' ' :: wsCollapseAux fuel (t.dropWhile pws)
    else c :: wsCollapseAux fuel t

def wsCollapse (s : List Char) : List Char := wsCollapseAux (s.length + 1) s

/-- Python `' '.join(s.split())`: strip, then collapse internal whitespace
runs to single spaces. -/
def joinSplitWs (s : List Char) : List Char := wsCollapse (stripB s)

/-- Python `str.isupper()` on ASCII text: at least one letter and no
lowercase letter. -/
def isupperB (s : List Char) : Bool :=
  s.any isAlphaC && s.all (fun c => !(isLowerAl c))

/-- Python `str.title()` on ASCII text: a letter is uppercased when the
previous character is not a letter, lowercased otherwise. -/
def titleCaseAux : Bool → List Char → List Char
  | _, [] => []
  | prev, c :: t =>
    (if isAlphaC c then (if prev then toLowerC c else toUpperC c) else c) ::
      titleCaseAux (isAlphaC c) t

def titleCase (s : List Char) : List Char := titleCaseAux false s

/-- Python `line.split('\n')`. -/
def splitNlAux : List Char → List Char → List (List Char)
  | [], cur => [cur.reverse]
  | c :: t, cur =>
    if c == '\n' then cur.reverse :: splitNlAux t [] else splitNlAux t (c :: cur)

def splitNl (s : List Char) : List (List Char) := splitNlAux s []

/-- Case-insensitive suffix test (for `(REPORT|STUDY|...)$`). -/
def endsWCI (suf s : List Char) : Bool :=
  decide (suf.length ≤ s.length) && decide (lowerAll (s.drop (s.length - suf.length)) = lowerAll suf)

/-- Shared tail of the label patterns `<label>\s*([^\n]+)`: the greedy `\s*`
(which may cross newlines) backs off just enough to leave at least one
non-newline character for the capture.  Returns the length consumed after
the label together with group 1, or none when only newlines remain. -/
def lineCapAfterWs (tail : List Char) : Option (Nat × List Char) :=
  let run := tail.takeWhile pws
  if !(tail.drop run.length).isEmpty then
    let cap := (tail.drop run.length).takeWhile (fun c => !(c == '\n'))
    some (run.length + cap.length, cap)
  else
    match lastIdxNotNl run with
    | some w =>
      let cap := (tail.drop w).takeWhile (fun c => !(c == '\n'))
      some (w + cap.length, cap)
    | none => none

/-- Matcher for `License\s*#?\s*:\s*([A-Z0-9]+)` (IGNORECASE): the optional
`#` is taken when present and cannot be rescued by backtracking. -/
def licM1 (s : List Char) : Option (List Char) :=
  if !(startsWCI (("license").toList) s) then none else
  let t := s.drop 7
  let t1 := t.drop (munch pws t)
  let afterHash :=
    match t1 with
    | '#' :: r => r.drop (munch pws r)
    | _ => t1
  match afterHash with
  | ':' :: r2 =>
    let r3 := r2.drop (munch pws r2)
    let cap := r3.takeWhile isAlnumC
    if cap.isEmpty then none else some cap
  | _ => none

/-- Matcher for `License\s*Number\s*:\s*([A-Z0-9]+)` (IGNORECASE). -/
def licM2 (s : List Char) : Option (List Char) :=
  if !(startsWCI (("license").toList) s) then none else
  let t := s.drop 7
  let t1 := t.drop (munch pws t)
  if !(startsWCI (("number").toList) t1) then none else
  let t2 := t1.drop 6
  match t2.drop (munch pws t2) with
  | ':' :: r2 =>
    let r3 := r2.drop (munch pws r2)
    let cap := r3.takeWhile isAlnumC
    if cap.isEmpty then none else some cap
  | _ => none

/-- Matcher for `Re:\s*License\s*#?\s*:\s*([A-Z0-9]+)` (IGNORECASE). -/
def licM3 (s : List Char) : Option (List Char) :=
  if !(startsWCI (("re:").toList) s) then none else
  let t := s.drop 3
  licM1 (t.drop (munch pws t))

/-- `extract_license_number` (lines 31-45 of both files): ordered patterns,
first search hit wins, returning group 1 verbatim. -/
def extract_license_number (text : List Char) : Option (List Char) :=
  match searchM licM1 text with
  | some cap => some cap
  | none =>
    match searchM licM2 text with
    | some cap => some cap
    | none => searchM licM3 text

/-- Matcher for one agency-name label pattern `<label>\s*([^\n]+)`. -/
def labelLineM (lbl : List Char) (s : List Char) : Option (List Char) :=
  if !(startsWCI lbl s) then none else
  match lineCapAfterWs (s.drop lbl.length) with
  | some (_, cap) => some cap
  | none => none

/-- `extract_agency_name` (lines 48-66): four ordered label patterns; the
result is stripped and internal whitespace is collapsed. -/
def extract_agency_name (text : List Char) : Option (List Char) :=
  let post := fun (cap : List Char) => wsCollapse (stripB cap)
  match searchM (labelLineM (("Agency Name:").toList)) text with
  | some cap => some (post cap)
  | none =>
    match searchM (labelLineM (("Name of Agency:").toList)) text with
    | some cap => some (post cap)
    | none =>
      match searchM (labelLineM (("Licensee Name:").toList)) text with
      | some cap => some (post cap)
      | none =>
        match searchM (labelLineM (("Name of Facility:").toList)) text with
        | some cap => some (post cap)
        | none => none

/-- Matcher for a `#`-labelled alphanumeric pattern
`<label>\s*#\s*:\s*([A-Z0-9]+)` (IGNORECASE). -/
def hashNumM (lbl : List Char) (s : List Char) : Option (List Char) :=
  if !(startsWCI lbl s) then none else
  let t := s.drop lbl.length
  match t.drop (munch pws t) with
  | '#' :: r =>
    match r.drop (munch pws r) with
    | ':' :: r2 =>
      let r3 := r2.drop (munch pws r2)
      let cap := r3.takeWhile isAlnumC
      if cap.isEmpty then none else some cap
    | _ => none
  | _ => none

/-- `extract_investigation_number` (lines 152-166): "Investigation #:",
"SIR #:", "Report #:" in order. -/
def extract_investigation_number (text : List Char) : Option (List Char) :=
  match searchM (hashNumM (("investigation").toList)) text with
  | some cap => some cap
  | none =>
    match searchM (hashNumM (("sir").toList)) text with
    | some cap => some cap
    | none => searchM (hashNumM (("report").toList)) text

/-- Matcher for a date label pattern `<label>\s*([^\n]+)`, returning
(group 0, group 1). -/
def dateLblM (lbl : List Char) (s : List Char) : Option (List Char × List Char) :=
  if !(startsWCI lbl s) then none else
  match lineCapAfterWs (s.drop lbl.length) with
  | some (consumed, cap) => some (s.take (lbl.length + consumed), cap)
  | none => none

/-- Matcher for `\d{1,2},?` style pieces: one or two digits followed by the
given character (the greedy `\d{1,2}` fails outright on a longer run since
backing off still leaves a digit where the delimiter is required). -/
def upTo2DigitsThen (delim : Char) (s : List Char) : Option Nat :=
  let ds := s.takeWhile isDigitC
  if ds.isEmpty || decide (3 ≤ ds.length) then none else
  match s.drop ds.length with
  | c :: _ => if c == delim then some (ds.length + 1) else none
  | [] => none

def monthNames : List (List Char) :=
  [("january").toList, ("february").toList, ("march").toList, ("april").toList,
   ("may").toList, ("june").toList, ("july").toList, ("august").toList,
   ("september").toList, ("october").toList, ("november").toList, ("december").toList]

def monthAt : List (List Char) → List Char → Option Nat
  | [], _ => none
  | n :: ns, s => if startsWCI n s then some n.length else monthAt ns s

/-- Matcher for the month-name date pattern
`(?:January|...|December)\s+\d{1,2},\s+\d{4}` (group 0). -/
def dateMonthM (s : List Char) : Option (List Char) :=
  match monthAt monthNames s with
  | none => none
  | some ml =>
    let t := s.drop ml
    let w := munch pws t
    if w == 0 then none else
    match upTo2DigitsThen (',') (t.drop w) with
    | none => none
    | some dl =>
      let t2 := (t.drop w).drop dl
      let w2 := munch pws t2
      if w2 == 0 then none else
      let ys := (t2.drop w2).takeWhile isDigitC
      if decide (ys.length < 4) then none else
      some (s.take (ml + w + dl + w2 + 4))

/-- Matcher for the numeric date pattern `\d{1,2}/\d{1,2}/\d{4}`
(group 0). -/
def dateSlashM (s : List Char) : Option (List Char) :=
  match upTo2DigitsThen ('/') s with
  | none => none
  | some l1 =>
    match upTo2DigitsThen ('/') (s.drop l1) with
    | none => none
    | some l2 =>
      let ys := (s.drop (l1 + l2)).takeWhile isDigitC
      if decide (ys.length < 4) then none else
      some (s.take (l1 + l2 + 4))

def dateLbl1 : List Char := ("Date(s) of On-site Inspection:").toList
def dateLbl2 : List Char := ("Date of On-site Inspection(s):").toList
def dateLbl3 : List Char := ("Special Investigation Intake Date:").toList

def dateSearch1 (t : List Char) : Option (List Char × List Char) :=
  searchM (dateLblM dateLbl1) t

def dateSearch2 (t : List Char) : Option (List Char × List Char) :=
  searchM (dateLblM dateLbl2) t

def dateSearch3 (t : List Char) : Option (List Char × List Char) :=
  searchM (dateLblM dateLbl3) t

def datePost (s : List Char) : List Char := wsCollapse (stripB s)

/-- `extract_inspection_date` as written in
src/pdf_parsing/extract_document_info.py (lines 168-189): the capture group
is used whenever `match.lastindex` is at least 1, i.e. for all three label
patterns; the month and slash patterns have no capture group and yield the
full match. -/
def extract_inspection_date_info (t : List Char) : Option (List Char) :=
  match dateSearch1 t with
  | some g => some (datePost g.2)
  | none =>
    match dateSearch2 t with
    | some g => some (datePost g.2)
    | none =>
      match dateSearch3 t with
      | some g => some (datePost g.2)
      | none =>
        match searchM dateMonthM t with
        | some g0 => some (datePost g0)
        | none => (searchM dateSlashM t).map datePost

/-- `extract_inspection_date` as written in
src/parse_parquet_violations.py (lines 169-189): the capture group is used
when `pattern.count('(') > 1`.  That count is 2 for the first two label
patterns (one escaped `\(` plus the group), but only 1 for the
`Special Investigation Intake Date:` pattern and for the month pattern's
`(?:`, and 0 for the slash pattern — so the third label pattern yields the
full match (label included) instead of the capture. -/
def extract_inspection_date_pv (t : List Char) : Option (List Char) :=
  match dateSearch1 t with
  | some g => some (datePost g.2)
  | none =>
    match dateSearch2 t with
    | some g => some (datePost g.2)
    | none =>
      match dateSearch3 t with
      | some g => some (datePost g.1)
      | none =>
        match searchM dateMonthM t with
        | some g0 => some (datePost g0)
        | none => (searchM dateSlashM t).map datePost

/-- Search for a plain literal title pattern under IGNORECASE, returning
group 0 with the original characters. -/
def litSearchG0 (pat : List Char) (s : List Char) : Option (List Char) :=
  searchM (fun u => if startsWCI pat u then some (u.take pat.length) else none) s

def bureauPre : List Char := ("BUREAU OF CHILDREN AND ADULT LICENSING").toList

/-- Search for `(?:BUREAU OF CHILDREN AND ADULT LICENSING\s+)?<lit>` under
IGNORECASE: at each position the prefixed branch is tried first, then the
bare literal. -/
def prefLitSearchG0 (lit : List Char) (s : List Char) : Option (List Char) :=
  searchM (fun u =>
    if startsWCI bureauPre u then
      let t := u.drop bureauPre.length
      let w := munch pws t
      if decide (1 ≤ w) && startsWCI lit (t.drop w) then
        some (u.take (bureauPre.length + w + lit.length))
      else if startsWCI lit u then some (u.take lit.length) else none
    else if startsWCI lit u then some (u.take lit.length) else none) s

/-- The ordered title pattern list of `extract_document_title`
(lines 93-116), searched until the first hit. -/
def titlePatternsSearch (h : List Char) : Option (List Char) :=
  match prefLitSearchG0 (("SPECIAL INVESTIGATION REPORT").toList) h with
  | some g => some g
  | none =>
  match prefLitSearchG0 (("LICENSING STUDY").toList) h with
  | some g => some g
  | none =>
  match litSearchG0 (("LICENSING STUDY REPORT").toList) h with
  | some g => some g
  | none =>
  match prefLitSearchG0 (("RENEWAL INSPECTION REPORT").toList) h with
  | some g => some g
  | none =>
  match litSearchG0 (("RENEWAL REPORT").toList) h with
  | some g => some g
  | none =>
  match litSearchG0 (("RENEWAL INSPECTION").toList) h with
  | some g => some g
  | none =>
  match litSearchG0 (("COMPLAINT INVESTIGATION REPORT").toList) h with
  | some g => some g
  | none =>
  match litSearchG0 (("COMPLAINT INVESTIGATION").toList) h with
  | some g => some g
  | none =>
  match prefLitSearchG0 (("INSPECTION REPORT").toList) h with
  | some g => some g
  | none =>
  match litSearchG0 (("ON-SITE INSPECTION REPORT").toList) h with
  | some g => some g
  | none =>
  match litSearchG0 (("INTERIM MONITORING REPORT").toList) h with
  | some g => some g
  | none =>
  match litSearchG0 (("MONITORING REPORT").toList) h with
  | some g => some g
  | none =>
  match litSearchG0 (("INSPECTION CHECKLIST").toList) h with
  | some g => some g
  | none =>
  match litSearchG0 (("CORRECTIVE ACTION PLAN").toList) h with
  | some g => some g
  | none => litSearchG0 (("PROVISIONAL LICENSE REPORT").toList) h

/-- Post-processing of a matched title (lines 121-133): normalize spacing,
title-case when fully uppercase, and append the investigation number for
special-investigation titles. -/
def titlePost (header g0 : List Char) : List Char :=
  let t0 := joinSplitWs g0
  let t1 := if isupperB t0 then titleCase t0 else t0
  if containsLit (("SPECIAL INVESTIGATION").toList) (upperAll t1) then
    match extract_investigation_number header with
    | some n => t1 ++ ((" #").toList) ++ n
    | none => t1
  else t1

/-- Fallback scan of the first 10 lines for a short line ending in
REPORT/STUDY/INSPECTION/INVESTIGATION (lines 137-147). -/
def titleFallback : List (List Char) → Option (List Char)
  | [] => none
  | line :: rest =>
    let ls := stripB line
    if !ls.isEmpty &&
       (endsWCI (("report").toList) ls || endsWCI (("study").toList) ls ||
        endsWCI (("inspection").toList) ls || endsWCI (("investigation").toList) ls) &&
       decide (ls.length < 100) then
      let t0 := joinSplitWs ls
      some (if isupperB t0 then titleCase t0 else t0)
    else titleFallback rest

/-- `extract_document_title` (lines 69-149): operates on the first 3000
characters; cover-letter phrase first, then the ordered pattern list, then
the line-scan fallback. -/
def extract_document_title (text : List Char) : Option (List Char) :=
  let header := text.take 3000
  if containsCI (("attached is the special investigation report").toList) header then
    let base := ("Special Investigation Report").toList
    match extract_investigation_number header with
    | some n => some (base ++ ((" #").toList) ++ n)
    | none => some base
  else
    match titlePatternsSearch header with
    | some g0 => some (titlePost header g0)
    | none => titleFallback ((splitNl header).take 10)

/-- `is_special_investigation` (lines 192-211).  The optional bureau prefix
adds nothing to a boolean search for the header phrase, so the second check
is a plain substring search. -/
def is_special_investigation (text : List Char) : Bool :=
  containsCI (("attached is the special investigation report").toList) (text.take 3000) ||
  containsCI (("special investigation report").toList) (text.take 3000) ||
  (extract_investigation_number (text.take 3000)).isSome

/-- The per-document record assembled by `parse_document` (lines 306-327);
the parquet passthrough fields (sha256, date_processed) are added by the
surrounding I/O loop and are not part of the core. -/
structure DocumentRecord where
  agency_id : Option (List Char)
  date : Option (List Char)
  agency_name : Option (List Char)
  document_title : Option (List Char)
  violations : List (List Char)
  num_violations : Nat
  is_sir : Bool
deriving Repr

/-- `parse_document` (lines 306-327): join the raw pages with newlines (no
footer cleaning or newline collapsing) and run every extractor on the joined
text. -/
def parse_document (text_pages : List (List Char)) : DocumentRecord :=
  let full := joinNL text_pages
  DocumentRecord.mk
    (extract_license_number full)
    (extract_inspection_date_pv full)
    (extract_agency_name full)
    (extract_document_title full)
    (extract_violations full)
    (extract_violations full).length
    (is_special_investigation full)

/-! Specification-side definitions used for comparison with the source. -/

/-- Header pattern as worded by claim C2 and §4.2 step 2 of the spec: a
line-start token of the form "R" + whitespace + digits "." digits + trailing
text up to and including the next literal period on the same logical line.
This follows the spec's words — "R" followed by whitespace, i.e. at least
one whitespace character — for comparison with the source's `ruleHeaderM`,
whose `R\s*` accepts zero whitespace characters. -/
def claimHeaderM (ls : Bool) (s : List Char) : Option (Nat × List Char) :=
  if !ls then none else
  let i0 := munch (fun c => c == ' ' || c == '\t') s
  match s.drop i0 with
  | 'R' :: s2 =>
    let w := munch pws s2
    if w == 0 then none else
    let s3 := s2.drop w
    let d1s := s3.takeWhile isDigitC
    if d1s.isEmpty then none else
    match s3.drop d1s.length with
    | '.' :: s5 =>
      let d2s := s5.takeWhile isDigitC
      if d2s.isEmpty then none else
      let s6 := s5.drop d2s.length
      let line := s6.takeWhile (fun c => !(c == '\n'))
      match firstIdxOf ('.') line with
      | none => none
      | some k =>
        some (i0 + 1 + w + d1s.length + 1 + d2s.length + (k + 1), d1s ++ '.' :: d2s)
    | _ => none
  | _ => none

/-- A condition id of the lettered level: exactly one lowercase letter,
as produced by the `\([a-z]\)` token pattern. -/
def isLetterIdB (s : List Char) : Bool :=
  match s with
  | [c] => isLowerAl c
  | _ => false

/-- A condition id of the roman-numeral level: a nonempty string over
`[ivxlcdm]`, as produced by the `\([ivxlcdm]+\)` token pattern. -/
def isRomanIdB (s : List Char) : Bool :=
  !s.isEmpty && s.all isRomanC

/-- Occurrence of a literal at an absolute position of a text. -/
def litAt (t : List Char) (i : Nat) (pat : List Char) : Bool :=
  startsW pat (t.drop i)

/-- First-occurrence-order deduplication of a list of keys. -/
def dedupKeys (xs : List (List Char)) : List (List Char) :=
  xs.foldl (fun ks k => if k ∈ ks then ks else ks ++ [k]) []

/-- Nesting shape actually guaranteed by the parser for one top-level
condition: its direct children (when present) are either all lettered ids or
all roman-numeral leaves, and any grandchildren are roman-numeral leaves. -/
def CondShape (c : Condition) : Prop :=
  ∀ l, c.sub = some l →
    ((∀ d ∈ l, isLetterIdB d.cid = true) ∨
     (∀ d ∈ l, isRomanIdB d.cid = true ∧ d.sub = none)) ∧
    (∀ d ∈ l, ∀ l2, d.sub = some l2 → ∀ e ∈ l2, isRomanIdB e.cid = true ∧ e.sub = none)

/-! Helper lemmas shared by the claim theorems. -/

theorem startsW_self : ∀ p : List Char, startsW p p = true := by
  intro p
  induction p with
  | nil => rfl
  | cons c t ih => simp [startsW, ih]

theorem containsLit_self (p : List Char) : containsLit p p = true := by
  unfold containsLit
  cases p with
  | nil => rfl
  | cons c t =>
    rw [findLitIdx, startsW_self]
    rfl

theorem dedupGuard_not_mem {vs : List (List Char)} {r : List Char}
    (h : dedupGuard vs r = true) : r ∉ vs := by
  intro hmem
  unfold dedupGuard at h
  have : r ∈ vs.filter (fun v => containsLit r v) :=
    List.mem_filter.mpr ⟨hmem, containsLit_self r⟩
  simp [this] at h

theorem gAdd_step (c : MatchR → Bool) (r : MatchR → List Char)
    (vs : List (List Char)) (m : MatchR) :
    gAdd c r vs m = vs ∨ ∃ x, gAdd c r vs m = vs ++ [x] ∧ x ∉ vs := by
  unfold gAdd
  by_cases hc : c m
  · simp only [hc, if_true]
    by_cases hg : dedupGuard vs (r m)
    · exact Or.inr ⟨r m, by simp [hg], dedupGuard_not_mem hg⟩
    · simp [hg]
  · simp [hc]

theorem foldl_gAdd_decomp (c : MatchR → Bool) (r : MatchR → List Char) :
    ∀ (ms : List MatchR) (acc : List (List Char)),
      ∃ rest, (ms.foldl (gAdd c r) acc) = acc ++ rest ∧ rest.Nodup ∧
        ∀ x ∈ rest, x ∉ acc := by
  intro ms
  induction ms with
  | nil => intro acc; exact ⟨[], by simp, List.nodup_nil, by simp⟩
  | cons m tail ih =>
    intro acc
    rcases gAdd_step c r acc m with h | ⟨x, hx, hxn⟩
    · rcases ih acc with ⟨rest, h1, h2, h3⟩
      exact ⟨rest, by simpa [List.foldl_cons, h] using h1, h2, h3⟩
    · rcases ih (acc ++ [x]) with ⟨rest, h1, h2, h3⟩
      refine ⟨x :: rest, ?_, ?_, ?_⟩
      · simp only [List.foldl_cons, hx, h1, List.append_assoc, List.singleton_append]
      · refine List.Nodup.cons ?_ h2
        intro hxr
        exact h3 x hxr (by simp)
      · intro y hy
        rcases List.mem_cons.mp hy with rfl | hy'
        · exact hxn
        · intro hacc
          exact h3 y hy' (by simp [hacc])

theorem foldl_gAdd_nil (c : MatchR → Bool) (r : MatchR → List Char) :
    ∀ (ms : List MatchR) (acc : List (List Char)),
      (∀ m ∈ ms, c m = false) → ms.foldl (gAdd c r) acc = acc := by
  intro ms
  induction ms with
  | nil => intro acc _; rfl
  | cons m tail ih =>
    intro acc h
    have hm : c m = false := h m (List.mem_cons_self m tail)
    have step : gAdd c r acc m = acc := by unfold gAdd; simp [hm]
    rw [List.foldl_cons, step]
    exact ih acc (fun m' hm' => h m' (List.mem_cons_of_mem m hm'))

theorem startsW_length : ∀ {p s : List Char}, startsW p s = true → p.length ≤ s.length := by
  intro p
  induction p with
  | nil => intro s _; simp
  | cons c t ih =>
    intro s h
    cases s with
    | nil => simp [startsW] at h
    | cons a u =>
      simp only [startsW, Bool.and_eq_true] at h
      simpa [List.length_cons] using Nat.succ_le_succ (ih h.2)

theorem startsW_take : ∀ {p s : List Char} {n : Nat},
    startsW p s = true → p.length ≤ n → startsW p (s.take n) = true := by
  intro p
  induction p with
  | nil => intro s n _ _; rfl
  | cons c t ih =>
    intro s n h hn
    cases s with
    | nil => simp [startsW] at h
    | cons a u =>
      simp only [startsW, Bool.and_eq_true] at h
      cases n with
      | zero => simp [List.length_cons] at hn
      | succ k =>
        simp only [List.take_succ_cons, startsW, Bool.and_eq_true]
        exact ⟨h.1, ih h.2 (Nat.le_of_succ_le_succ (by simpa [List.length_cons] using hn))⟩

theorem startsW_imp_CI : ∀ {p s : List Char}, startsW p s = true → startsWCI p s = true := by
  intro p
  induction p with
  | nil => intro s _; rfl
  | cons c t ih =>
    intro s h
    cases s with
    | nil => simp [startsW] at h
    | cons a u =>
      simp only [startsW, Bool.and_eq_true] at h
      have : c = a := by
        have := h.1
        simpa using this
      simp only [startsWCI, this, Bool.and_eq_true]
      exact ⟨by simp, ih h.2⟩

theorem startsWCI_containsCI : ∀ {s : List Char} {j : Nat} {pat : List Char},
    startsWCI pat (s.drop j) = true → containsCI pat s = true := by
  intro s
  induction s with
  | nil =>
    intro j pat h
    simp only [List.drop_nil] at h
    cases pat with
    | nil => rfl
    | cons c t => simp [startsWCI] at h
  | cons a u ih =>
    intro j pat h
    cases j with
    | zero =>
      unfold containsCI findLitIdxCI
      simp only [List.drop] at h
      rw [h]
      rfl
    | succ k =>
      have hk : startsWCI pat (u.drop k) = true := by simpa [List.drop] using h
      have := ih hk
      unfold containsCI findLitIdxCI
      by_cases hs : startsWCI pat (a :: u)
      · rw [hs]; rfl
      · rw [if_neg (by simpa using hs)]
        unfold containsCI at this
        cases hfi : findLitIdxCI pat u with
        | none => rw [hfi] at this; simp at this
        | some i => simp [hfi]

theorem finditerAux_mem {M : Bool → List Char → Option (Nat × List Char)}
    {Q : MatchR → Prop}
    (hQ : ∀ b s off len cap, M b s = some (len, cap) → Q ⟨off, off + len, cap⟩) :
    ∀ (fuel : Nat) (ls : Bool) (off : Nat) (s : List Char) (m : MatchR),
      m ∈ finditerAux M fuel ls off s → Q m := by
  intro fuel
  induction fuel with
  | zero => intro ls off s m h; simp [finditerAux] at h
  | succ n ih =>
    intro ls off s m h
    unfold finditerAux at h
    split at h
    · rename_i len cap hM
      rcases List.mem_cons.mp h with rfl | h'
      · exact hQ _ _ _ _ _ hM
      · exact ih _ _ _ _ h'
    · simp at h
    · exact ih _ _ _ _ h

theorem finditer_mem {M : Bool → List Char → Option (Nat × List Char)}
    {Q : MatchR → Prop}
    (hQ : ∀ b s off len cap, M b s = some (len, cap) → Q ⟨off, off + len, cap⟩)
    {s : List Char} {m : MatchR} (h : m ∈ finditer M s) : Q m :=
  finditerAux_mem hQ _ _ _ _ _ h

/-! Theorems for the claims.  Concrete evaluations first. -/

/-- C3: parsing the single page
"R 400.1 Definitions.\n(1) Foo.\n(a) Bar.\n(2) Baz." yields exactly one rule
keyed "400.1" whose two top-level conditions are "1" and "2" in that order;
condition "1" has exactly one lettered sub-condition "a" with text "Bar.",
and condition "2" has text "Baz." and no sub-conditions. -/
theorem C3_example :
    parse_rules_from_pages [("R 400.1 Definitions.\n(1) Foo.\n(a) Bar.\n(2) Baz.").toList] =
      [(("400.1").toList,
        Rule.mk (("Definitions.\n(1) Foo.\n(a) Bar.\n(2) Baz.").toList)
          (("Definitions").toList) (("Rule 1").toList)
          [Condition.mk (("1").toList) (("Foo.\n(a) Bar.").toList)
             (some [Condition.mk (("a").toList) (("Bar.").toList) none]),
           Condition.mk (("2").toList) (("Baz.").toList) none]
          none)] := by
  rfl

/-- C1 counterexample: for the document
"Rule Code & CPA Rule 400.1 x\nConclusion Violation Established and is not
violated", the single rule-code context window contains both "violation"
language and the negating phrase "is not violated", yet `extract_violations`
does record the reference "Rule 400.1 x" — the explicit conclusion branch is
checked before the negation check, so the claim's unconditional suppression
fails. -/
theorem C1_counterexample :
    extract_violations (("Rule Code & CPA Rule 400.1 x\nConclusion Violation Established and is not violated").toList) =
      [("Rule 400.1 x").toList] ∧
    ((strat1CtxList (("Rule Code & CPA Rule 400.1 x\nConclusion Violation Established and is not violated").toList)
        (finditer ruleCodeM (("Rule Code & CPA Rule 400.1 x\nConclusion Violation Established and is not violated").toList))).all
      (fun p => containsCI (("violation").toList) p.1 && negSearch p.1)) = true := by
  exact ⟨rfl, rfl⟩

/-- C2 counterexample: the page "R400.1 Foo." has no header of the claim's
described form ("R" followed by whitespace), yet the parser returns the key
"400.1" — the source regex `R\s*(\d+\.\d+)` makes the whitespace optional,
so the claimed key set is not exact. -/
theorem C2_counterexample :
    (parse_rules_from_pages [("R400.1 Foo.").toList]).map Prod.fst = [("400.1").toList] ∧
    (finditer claimHeaderM (normalizePages [("R400.1 Foo.").toList])).map MatchR.cap = [] := by
  exact ⟨rfl, rfl⟩

/-- C4 counterexample: two identical rule-code headers, each followed by a
conclusion phrase in its own window, produce the same reference twice —
strategy 1 appends without any deduplication guard, so the output list is
not pairwise distinct. -/
theorem C4_counterexample :
    extract_violations (("Rule Code & CPA Rule 400.1 a\nConclusion Violation Established\nRule Code & CPA Rule 400.1 a\nConclusion Violation Established").toList) =
      [("Rule 400.1 a").toList, ("Rule 400.1 a").toList] ∧
    ¬ (extract_violations (("Rule Code & CPA Rule 400.1 a\nConclusion Violation Established\nRule Code & CPA Rule 400.1 a\nConclusion Violation Established").toList)).Nodup := by
  refine ⟨rfl, ?_⟩
  decide

/-- C5 counterexample: for the page "R 400.1 T.\n(1) A.\n(ii) B." the parser
produces a roman-numeral child "ii" directly under the numeric condition
"1" — the text has no lettered tokens, so the code's fallback nests roman
numerals one level higher than the claim's strict numeric→letter→roman
hierarchy allows. -/
theorem C5_counterexample :
    parse_rules_from_pages [("R 400.1 T.\n(1) A.\n(ii) B.").toList] =
      [(("400.1").toList,
        Rule.mk (("T.\n(1) A.\n(ii) B.").toList) (("T").toList) (("Rule 1").toList)
          [Condition.mk (("1").toList) (("A.\n(ii) B.").toList)
             (some [Condition.mk (("ii").toList) (("B.").toList) none])]
          none)] ∧
    isLetterIdB (("ii").toList) = false ∧ isRomanIdB (("ii").toList) = true := by
  exact ⟨rfl, rfl, rfl⟩

/-- C6 counterexample: for the body "... History: 1979 AC R 400.1 eff." the
lazy `(.+?\.)` stops at the first period — the one inside the citation
"400.1" — so the stored history is "1979 AC R 400.", not the full text after
the label, and the rule text keeps the residue "1 eff." of the clause. -/
theorem C6_counterexample :
    parse_rules_from_pages [("R 400.9 T.\nBody. History: 1979 AC R 400.1 eff.").toList] =
      [(("400.9").toList,
        Rule.mk (("T.\nBody. 1 eff.").toList) (("T").toList) (("Rule 9").toList) []
          (some (("1979 AC R 400.").toList)))] ∧
    ("1979 AC R 400.").toList ≠ ("1979 AC R 400.1 eff.").toList ∧
    containsLit (("1 eff.").toList) (("T.\nBody. 1 eff.").toList) = true := by
  refine ⟨rfl, ?_, rfl⟩
  decide

/-- C7 counterexample: for the single page "X\n␤×10\nGOOD REPORT",
`parse_document` finds no title (the raw join leaves "GOOD REPORT" on the
11th line, outside the fallback's 10-line scan), while the extractors run on
the §4.1-normalized text (newline runs collapsed to two) do find the title —
so `parse_document` does not normalize before extracting. -/
theorem C7_counterexample :
    (parse_document [("X\n\n\n\n\n\n\n\n\n\nGOOD REPORT").toList]).document_title = none ∧
    extract_document_title (normalizePages [("X\n\n\n\n\n\n\n\n\n\nGOOD REPORT").toList]) =
      some (("Good Report").toList) := by
  exact ⟨rfl, rfl⟩

/-- C10 counterexample: on "Special Investigation Intake Date: 01/02/2020"
the copy in src/pdf_parsing/extract_document_info.py returns the captured
date while the copy in src/parse_parquet_violations.py returns the full
match including the label — `pattern.count('(')` is 1 for that pattern, not
greater than 1, so the two files disagree. -/
theorem C10_counterexample :
    extract_inspection_date_info (("Special Investigation Intake Date: 01/02/2020").toList) =
      some (("01/02/2020").toList) ∧
    extract_inspection_date_pv (("Special Investigation Intake Date: 01/02/2020").toList) =
      some (("Special Investigation Intake Date: 01/02/2020").toList) ∧
    extract_inspection_date_info (("Special Investigation Intake Date: 01/02/2020").toList) ≠
      extract_inspection_date_pv (("Special Investigation Intake Date: 01/02/2020").toList) := by
  refine ⟨rfl, rfl, ?_⟩
  decide

/-- C7 amended: `parse_document` joins the raw pages with single newlines —
with no §4.1 normalization — and produces exactly the outputs of the field
and violation extractors on that joined text. -/
theorem C7_amended (pages : List (List Char)) :
    parse_document pages =
      DocumentRecord.mk
        (extract_license_number (joinNL pages))
        (extract_inspection_date_pv (joinNL pages))
        (extract_agency_name (joinNL pages))
        (extract_document_title (joinNL pages))
        (extract_violations (joinNL pages))
        (extract_violations (joinNL pages)).length
        (is_special_investigation (joinNL pages)) := rfl

/-- C10 amended: the two `extract_inspection_date` copies agree on every
input on which the "Special Investigation Intake Date:" pattern is not the
first one to match — i.e. whenever one of the first two label patterns
matches, or the third does not. -/
theorem C10_amended (t : List Char)
    (h : dateSearch1 t ≠ none ∨ dateSearch2 t ≠ none ∨ dateSearch3 t = none) :
    extract_inspection_date_info t = extract_inspection_date_pv t := by
  unfold extract_inspection_date_info extract_inspection_date_pv
  cases h1 : dateSearch1 t with
  | some g => rfl
  | none =>
    cases h2 : dateSearch2 t with
    | some g => rfl
    | none =>
      have h3 : dateSearch3 t = none := by
        rcases h with h | h | h
        · exact absurd h1 h
        · exact absurd h2 h
        · exact h
      rw [h3]

/-- Witness for C10 amended at the input "05/06/2021", where no label
pattern matches and both copies return the slash-date. -/
theorem C10_amended_witness :
    dateSearch3 (("05/06/2021").toList) = none ∧
    extract_inspection_date_info (("05/06/2021").toList) =
      extract_inspection_date_pv (("05/06/2021").toList) :=
  ⟨rfl, C10_amended (("05/06/2021").toList) (Or.inr (Or.inr rfl))⟩

/-- C9: graceful degradation is built into the core.  A document whose
normalized text has no rule-header match parses to the empty mapping; a text
in which no license pattern matches extracts no license number; a text with
no citation matches of any strategy yields no violations.  Every extractor
is a total function returning an optional/empty result rather than raising. -/
theorem C9_totality :
    (∀ pages, finditer ruleHeaderM (normalizePages pages) = [] →
       parse_rules_from_pages pages = []) ∧
    (∀ t, searchM licM1 t = none → searchM licM2 t = none → searchM licM3 t = none →
       extract_license_number t = none) ∧
    (∀ t, finditer ruleCodeM t = [] → finditer applicableM t = [] →
       finditer r400M t = [] → finditer mclM t = [] → extract_violations t = []) := by
  refine ⟨?_, ?_, ?_⟩
  · intro pages h
    show parseRulesAux (normalizePages pages)
      (finditer ruleHeaderM (normalizePages pages)) [] = []
    rw [h]
    rfl
  · intro t h1 h2 h3
    unfold extract_license_number
    rw [h1, h2, h3]
  · intro t h1 h2 h3 h4
    unfold extract_violations strat3 strat2 strat1b strat1Refs
    rw [h1, h2, h3, h4]
    rfl

/-- Witness for C9 on concrete header-free and pattern-free inputs. -/
theorem C9_totality_witness :
    parse_rules_from_pages [("no rules in this document").toList] = [] ∧
    extract_license_number (("plain text").toList) = none ∧
    extract_violations (("plain text").toList) = [] :=
  ⟨C9_totality.1 [("no rules in this document").toList] rfl,
   C9_totality.2.1 (("plain text").toList) rfl rfl rfl,
   C9_totality.2.2 (("plain text").toList) rfl rfl rfl rfl⟩

theorem strat1Contrib_nil {ctx cap : List Char}
    (hneg : negSearch ctx = true) (hconc : conclusion1Search ctx = false) :
    strat1Contrib ctx cap = [] := by
  unfold strat1Contrib
  rw [hconc, hneg]
  simp

theorem strat1Cat_nil {l : List (List Char × List Char)}
    (h : ∀ p ∈ l, negSearch p.1 = true ∧ conclusion1Search p.1 = false) :
    strat1Cat l = [] := by
  induction l with
  | nil => rfl
  | cons p t ih =>
    have hp := h p (List.mem_cons_self p t)
    show strat1Contrib p.1 p.2 ++ strat1Cat t = []
    rw [strat1Contrib_nil hp.1 hp.2, ih (fun q hq => h q (List.mem_cons_of_mem p hq))]
    rfl

/-- C1 amended: the negating phrases suppress only the "Analysis…violation"
branch of the rule-code strategy.  For every document in which each
rule-code context window contains a negating phrase and does not contain the
explicit "Conclusion [Repeat] Violation Established" phrase, strategy 1
records nothing, so the extractor's output comes from the later strategies
alone.  (With the conclusion phrase present, the reference is recorded
despite the negating phrase — `C1_counterexample`.) -/
theorem C1_amended (t : List Char)
    (h : ∀ p ∈ strat1CtxList t (finditer ruleCodeM t),
           negSearch p.1 = true ∧ conclusion1Search p.1 = false) :
    strat1Refs t = [] ∧ extract_violations t = strat3 t (strat2 t (strat1b t [])) := by
  have h1 : strat1Refs t = [] := strat1Cat_nil h
  exact ⟨h1, by unfold extract_violations; rw [h1]⟩

/-- Witness for C1 amended: a rule-code occurrence whose window has analysis
and violation language together with "is not violated" and no conclusion
phrase contributes nothing. -/
theorem C1_amended_witness :
    strat1Refs (("Rule Code & CPA Rule 400.2 y\nAnalysis shows violation but it is not violated").toList) = [] ∧
    extract_violations (("Rule Code & CPA Rule 400.2 y\nAnalysis shows violation but it is not violated").toList) =
      strat3 (("Rule Code & CPA Rule 400.2 y\nAnalysis shows violation but it is not violated").toList)
        (strat2 (("Rule Code & CPA Rule 400.2 y\nAnalysis shows violation but it is not violated").toList)
          (strat1b (("Rule Code & CPA Rule 400.2 y\nAnalysis shows violation but it is not violated").toList) [])) :=
  C1_amended (("Rule Code & CPA Rule 400.2 y\nAnalysis shows violation but it is not violated").toList)
    (by decide)

/-- C4 amended: strategies 1b, 2 and 3 each check the accumulated list
before appending, so every reference they add occurs exactly once in the
final output; duplicates can arise only inside the strategy-1 segment, which
appends without a guard (`C4_counterexample`).  Cross-strategy deduplication
and first-position priority hold as claimed. -/
theorem C4_amended (t : List Char) :
    ∃ rest, extract_violations t = strat1Refs t ++ rest ∧ rest.Nodup ∧
      ∀ x ∈ rest, x ∉ strat1Refs t := by
  rcases foldl_gAdd_decomp
      (fun m => conclusion2Search (ctxSpan t m.start (min (m.start + 3000) t.length)))
      (fun m => (("R ").toList) ++ stripB m.cap)
      (finditer applicableM t) (strat1Refs t) with ⟨r1, e1, n1, d1⟩
  rcases foldl_gAdd_decomp
      (fun m => positiveSearch (ctxAround t m.start m.stop) &&
                !negSearch (ctxAround t m.start m.stop))
      (fun m => stripB m.cap)
      (finditer r400M t) (strat1Refs t ++ r1) with ⟨r2, e2, n2, d2⟩
  rcases foldl_gAdd_decomp
      (fun m => positiveSearch (ctxAround t m.start m.stop) &&
                !negSearch (ctxAround t m.start m.stop))
      (fun m => stripB m.cap)
      (finditer mclM t) ((strat1Refs t ++ r1) ++ r2) with ⟨r3, e3, n3, d3⟩
  refine ⟨r1 ++ r2 ++ r3, ?_, ?_, ?_⟩
  · show strat3 t (strat2 t (strat1b t (strat1Refs t))) = _
    unfold strat3 strat2 strat1b
    rw [e1, e2, e3]
    simp [List.append_assoc]
  · refine List.Nodup.append (List.Nodup.append n1 n2 ?_) n3 ?_
    · intro a ha1 ha2
      exact d2 a ha2 (by simp [ha1])
    · intro a ha12 ha3
      rcases List.mem_append.mp ha12 with ha1 | ha2
      · exact d3 a ha3 (by simp [ha1])
      · exact d3 a ha3 (by simp [ha2])
  · intro x hx hs1
    rcases List.mem_append.mp hx with hx12 | hx3
    · rcases List.mem_append.mp hx12 with hx1 | hx2
      · exact d1 x hx1 hs1
      · exact d2 x hx2 (by simp [hs1])
    · exact d3 x hx3 (by simp [hs1])

theorem insertOW_keys (l : List (List Char × Rule)) (k : List Char) (v : Rule) :
    (insertOW l k v).map Prod.fst =
      if k ∈ l.map Prod.fst then l.map Prod.fst else l.map Prod.fst ++ [k] := by
  induction l with
  | nil => rfl
  | cons p t ih =>
    rcases p with ⟨k', v'⟩
    by_cases hk : k = k'
    · subst hk
      have e : insertOW ((k, v') :: t) k v = (k, v) :: t := by
        show (if k = k then (k, v) :: t else (k, v') :: insertOW t k v) = (k, v) :: t
        rw [if_pos rfl]
      rw [e]
      have : k ∈ ((k, v') :: t).map Prod.fst :=
        List.mem_cons_self k (t.map Prod.fst)
      rw [if_pos this]
      rfl
    · have e : insertOW ((k', v') :: t) k v = (k', v') :: insertOW t k v := by
        show (if k = k' then (k, v) :: t else (k', v') :: insertOW t k v) = _
        rw [if_neg hk]
      rw [e]
      show k' :: (insertOW t k v).map Prod.fst = _
      rw [ih]
      by_cases hm : k ∈ t.map Prod.fst
      · rw [if_pos hm, if_pos (by simp [hm]), List.map_cons]
      · rw [if_neg hm, if_neg (by simp [hm, hk]), List.map_cons]
        rfl

theorem parseRulesAux_keys (full : List Char) :
    ∀ (ms : List MatchR) (acc : List (List Char × Rule)),
      (parseRulesAux full ms acc).map Prod.fst =
        (ms.map MatchR.cap).foldl (fun ks k => if k ∈ ks then ks else ks ++ [k])
          (acc.map Prod.fst) := by
  intro ms
  induction ms with
  | nil => intro acc; rfl
  | cons m tail ih =>
    intro acc
    cases tail with
    | nil =>
      show (insertOW acc m.cap (ruleFromSpan full m full.length)).map Prod.fst = _
      rw [insertOW_keys]
      rfl
    | cons m2 rest =>
      show (parseRulesAux full (m2 :: rest)
        (insertOW acc m.cap (ruleFromSpan full m m2.start))).map Prod.fst = _
      rw [ih, insertOW_keys]
      rfl

/-- C2 amended: the key set of `parse_rules_from_pages` is exactly the
first-occurrence-ordered deduplication of the numbers captured by the
source's header regex `(?m)^[ \t]*R\s*(\d+\.\d+)\b[^\n]*\.` on the
normalized text — in which the whitespace after "R" is optional (`\s*`),
unlike the claim's "R + whitespace" (`C2_counterexample`); inline
cross-references not at line start still never contribute a key. -/
theorem C2_amended (pages : List (List Char)) :
    (parse_rules_from_pages pages).map Prod.fst =
      dedupKeys ((finditer ruleHeaderM (normalizePages pages)).map MatchR.cap) := by
  show (parseRulesAux (normalizePages pages)
    (finditer ruleHeaderM (normalizePages pages)) []).map Prod.fst = _
  rw [parseRulesAux_keys]
  rfl

theorem letTokM_cap {b : Bool} {s : List Char} {l : Nat} {cap : List Char}
    (h : letTokM b s = some (l, cap)) : isLetterIdB cap = true := by
  unfold letTokM at h
  split at h
  · rename_i c rest
    split at h
    · rename_i hlow
      injection h with h'
      injection h' with h1 h2
      subst h2
      simpa [isLetterIdB] using hlow
    · exact absurd h (by simp)
  · exact absurd h (by simp)

theorem romTokM_cap {b : Bool} {s : List Char} {l : Nat} {cap : List Char}
    (h : romTokM b s = some (l, cap)) : isRomanIdB cap = true := by
  unfold romTokM at h
  split at h
  · rename_i t
    by_cases he : (t.takeWhile isRomanC).isEmpty
    · rw [if_pos he] at h
      exact absurd h (by simp)
    · rw [if_neg he] at h
      split at h
      · injection h with h'
        injection h' with h1 h2
        subst h2
        unfold isRomanIdB
        have h1 : (t.takeWhile isRomanC).isEmpty = false := by simpa using he
        have h2 : (t.takeWhile isRomanC).all isRomanC = true :=
          List.all_eq_true.mpr (fun c hc => List.mem_takeWhile_imp hc)
        rw [h1, h2]
        rfl
      · exact absurd h (by simp)
  · exact absurd h (by simp)

theorem splitParts_fst {P : List Char → Prop} (text : List Char) :
    ∀ ms : List MatchR, (∀ m ∈ ms, P m.cap) → ∀ pr ∈ splitParts text ms, P pr.1 := by
  intro ms
  induction ms with
  | nil => intro _ pr hpr; simp [splitParts] at hpr
  | cons m tail ih =>
    intro h pr hpr
    cases tail with
    | nil =>
      have : pr = (m.cap, stripB (text.drop m.stop)) := List.mem_singleton.mp hpr
      rw [this]
      exact h m (List.mem_cons_self m [])
    | cons m2 rest =>
      rcases List.mem_cons.mp hpr with rfl | h'
      · exact h m (List.mem_cons_self m (m2 :: rest))
      · exact ih (fun q hq => h q (List.mem_cons_of_mem m hq)) pr h'

theorem split_by_token_ids {P : List Char → Prop}
    {tokM : Bool → List Char → Option (Nat × List Char)}
    (hM : ∀ b s l c, tokM b s = some (l, c) → P c)
    {text : List Char} {ps : List (List Char × List Char)}
    (h : split_by_token tokM text = some ps) :
    ∀ pr ∈ ps, P pr.1 := by
  unfold split_by_token at h
  split at h
  · exact absurd h (by simp)
  · injection h with h'
    subst h'
    exact splitParts_fst text _
      (fun m hm => @finditer_mem tokM (fun mr => P mr.cap)
        (fun b s off len cap hMe => hM b s len cap hMe) text m hm)

theorem buildLetter_sub_roman (lp : List Char × List Char) :
    ∀ l2, (buildLetter lp).sub = some l2 → ∀ e ∈ l2, isRomanIdB e.cid = true ∧ e.sub = none := by
  intro l2 h e he
  unfold buildLetter at h
  split at h
  · rename_i rs hrs
    have h' : some (rs.map (fun r => Condition.mk r.1 r.2 none)) = some l2 := h
    injection h' with h2
    subst h2
    rcases List.mem_map.mp he with ⟨q, hq, rfl⟩
    exact ⟨split_by_token_ids (fun b s l c hm => romTokM_cap hm) hrs q hq, rfl⟩
  · exact absurd h (by simp [Condition.sub])

theorem condShape_buildLetter (lp : List Char × List Char) :
    CondShape (buildLetter lp) := by
  intro l hsub
  refine ⟨Or.inr (fun d hd => buildLetter_sub_roman lp l hsub d hd), ?_⟩
  intro d hd l2 h2 e he
  have hn := (buildLetter_sub_roman lp l hsub d hd).2
  rw [hn] at h2
  exact absurd h2 (by simp)

theorem condShape_buildNumeric (np : List Char × List Char) :
    CondShape (buildNumeric np) := by
  intro l hsub
  unfold buildNumeric at hsub
  split at hsub
  · rename_i ls hls
    have h' : some (ls.map buildLetter) = some l := hsub
    injection h' with h2
    subst h2
    constructor
    · left
      intro d hd
      rcases List.mem_map.mp hd with ⟨lp, hlp, rfl⟩
      have hfst : isLetterIdB lp.1 = true :=
        split_by_token_ids (fun b s l c hm => letTokM_cap hm) hls lp hlp
      have : (buildLetter lp).cid = lp.1 := by
        unfold buildLetter
        split <;> rfl
      rw [this]
      exact hfst
    · intro d hd l2 h2 e he
      rcases List.mem_map.mp hd with ⟨lp, hlp, rfl⟩
      exact buildLetter_sub_roman lp l2 h2 e he
  · split at hsub
    · rename_i rs hrs
      have h' : some (rs.map (fun r => Condition.mk r.1 r.2 none)) = some l := hsub
      injection h' with h2
      subst h2
      constructor
      · right
        intro d hd
        rcases List.mem_map.mp hd with ⟨q, hq, rfl⟩
        exact ⟨split_by_token_ids (fun b s l c hm => romTokM_cap hm) hrs q hq, rfl⟩
      · intro d hd l2 h2 e he
        rcases List.mem_map.mp hd with ⟨q, hq, rfl⟩
        exact absurd h2 (by simp [Condition.sub])
    · exact absurd hsub (by simp [Condition.sub])

theorem buildConditions_shape (rt : List Char) :
    ∀ c ∈ buildConditions rt, CondShape c := by
  intro c hc
  unfold buildConditions at hc
  split at hc
  · rcases List.mem_map.mp hc with ⟨np, _, rfl⟩
    exact condShape_buildNumeric np
  · split at hc
    · rcases List.mem_map.mp hc with ⟨lp, _, rfl⟩
      exact condShape_buildLetter lp
    · simp at hc

theorem insertOW_val :
    ∀ (l : List (List Char × Rule)) (k : List Char) (v : Rule) (p : List Char × Rule),
      p ∈ insertOW l k v → p ∈ l ∨ p.2 = v := by
  intro l
  induction l with
  | nil =>
    intro k v p hp
    have : p = (k, v) := List.mem_singleton.mp hp
    exact Or.inr (by rw [this])
  | cons q t ih =>
    intro k v p hp
    rcases q with ⟨k', v'⟩
    by_cases hk : k = k'
    · subst hk
      have e : insertOW ((k, v') :: t) k v = (k, v) :: t := by
        show (if k = k then (k, v) :: t else (k, v') :: insertOW t k v) = (k, v) :: t
        rw [if_pos rfl]
      rw [e] at hp
      rcases List.mem_cons.mp hp with rfl | h'
      · exact Or.inr rfl
      · exact Or.inl (List.mem_cons_of_mem _ h')
    · have e : insertOW ((k', v') :: t) k v = (k', v') :: insertOW t k v := by
        show (if k = k' then (k, v) :: t else (k', v') :: insertOW t k v) = _
        rw [if_neg hk]
      rw [e] at hp
      rcases List.mem_cons.mp hp with rfl | h'
      · exact Or.inl (List.mem_cons_self _ _)
      · rcases ih k v p h' with h'' | h''
        · exact Or.inl (List.mem_cons_of_mem _ h'')
        · exact Or.inr h''

theorem parseRulesAux_val (full : List Char) :
    ∀ (ms : List MatchR) (acc : List (List Char × Rule)) (p : List Char × Rule),
      p ∈ parseRulesAux full ms acc →
        p ∈ acc ∨ ∃ m e, p.2 = ruleFromSpan full m e := by
  intro ms
  induction ms with
  | nil => intro acc p hp; exact Or.inl hp
  | cons m tail ih =>
    intro acc p hp
    cases tail with
    | nil =>
      rcases insertOW_val acc m.cap (ruleFromSpan full m full.length) p hp with h | h
      · exact Or.inl h
      · exact Or.inr ⟨m, full.length, h⟩
    | cons m2 rest =>
      rcases ih _ p hp with h | h
      · rcases insertOW_val acc m.cap (ruleFromSpan full m m2.start) p h with h' | h'
        · exact Or.inl h'
        · exact Or.inr ⟨m, m2.start, h'⟩
      · exact Or.inr h

/-- C5 amended: every condition tree the parser produces has homogeneous
child levels — a top-level condition's children are either all lettered ids
or (when the text under it has no single-letter token) all roman-numeral
leaves, and all grandchildren are roman-numeral leaves.  In particular no
lettered child ever appears under a lettered parent, but a roman-numeral
child can sit directly under a numeric parent (`C5_counterexample`). -/
theorem C5_amended (pages : List (List Char)) (k : List Char) (r : Rule)
    (h : (k, r) ∈ parse_rules_from_pages pages) :
    ∀ c ∈ r.conditions, CondShape c := by
  intro c hc
  rcases parseRulesAux_val (normalizePages pages)
      (finditer ruleHeaderM (normalizePages pages)) [] (k, r) h with h' | ⟨m, e, h2⟩
  · simp at h'
  · have hr : r = ruleFromSpan (normalizePages pages) m e := h2
    rw [hr] at hc
    exact buildConditions_shape _ c hc

/-- Witness for C5 amended at the counterexample document: the roman child
"ii" under the numeric parent "1" satisfies the amended shape. -/
theorem C5_amended_witness :
    CondShape (Condition.mk (("1").toList) (("A.\n(ii) B.").toList)
      (some [Condition.mk (("ii").toList) (("B.").toList) none])) :=
  C5_amended [("R 400.1 T.\n(1) A.\n(ii) B.").toList] (("400.1").toList)
    (Rule.mk (("T.\n(1) A.\n(ii) B.").toList) (("T").toList) (("Rule 1").toList)
      [Condition.mk (("1").toList) (("A.\n(ii) B.").toList)
        (some [Condition.mk (("ii").toList) (("B.").toList) none])] none)
    (show _ ∈ parse_rules_from_pages [("R 400.1 T.\n(1) A.\n(ii) B.").toList] from
      List.mem_singleton_self _)
    (Condition.mk (("1").toList) (("A.\n(ii) B.").toList)
      (some [Condition.mk (("ii").toList) (("B.").toList) none]))
    (List.mem_singleton_self _)

theorem take_len_add (l r : List Char) (n : Nat) :
    (l ++ r).take (l.length + n) = l ++ r.take n := by
  rw [List.take_append_eq_append_take]
  simp

theorem firstIdxOf_append (ch : Char) :
    ∀ (l r : List Char), ch ∉ l → firstIdxOf ch (l ++ ch :: r) = some l.length := by
  intro l
  induction l with
  | nil =>
    intro r _
    show firstIdxOf ch (ch :: r) = some 0
    unfold firstIdxOf
    simp
  | cons a t ih =>
    intro r h
    have hne : ch ≠ a ∧ ch ∉ t := by
      simpa [List.mem_cons] using h
    have ha : (a == ch) = false := by
      simp [beq_iff_eq]
      exact fun e => hne.1 e.symm
    show (if a == ch then some 0 else (firstIdxOf ch (t ++ ch :: r)).map (fun n => n + 1)) =
      some (a :: t).length
    rw [ha, ih r hne.2]
    simp

theorem stripB_cons_dot (c0 : Char) (c : List Char) (h : pws c0 = false) :
    stripB (c0 :: (c ++ [('.')])) = c0 :: (c ++ [('.')]) := by
  unfold stripB
  have h1 : (c0 :: (c ++ [('.')])).dropWhile pws = c0 :: (c ++ [('.')]) := by
    rw [List.dropWhile_cons]
    simp [h]
  rw [h1]
  have h2 : (c0 :: (c ++ [('.')])).reverse = '.' :: (c.reverse ++ [c0]) := by
    simp
  rw [h2]
  have h3 : ('.' :: (c.reverse ++ [c0])).dropWhile pws = '.' :: (c.reverse ++ [c0]) := by
    rw [List.dropWhile_cons]
    simp [pws]
  rw [h3, ← h2, List.reverse_reverse]

/-- C6 amended: the `History:` clause is captured up to and including the
first period after the label — which may fall inside a dotted citation, as
in `C6_counterexample` — and the rule body loses exactly the matched span:
for any body whose first "History:" occurrence is followed by one space and
a period-free segment, the stored history is that segment with its
terminating period, and the remaining text splices out only the label and
that segment. -/
theorem C6_amended (pre c rest : List Char) (c0 : Char)
    (hfind : findLitIdx (("History:").toList)
        (pre ++ ("History: ").toList ++ c0 :: (c ++ '.' :: rest)) = some pre.length)
    (hc0 : pws c0 = false)
    (hdot : ('.') ∉ c0 :: c) :
    extractHistory (pre ++ ("History: ").toList ++ c0 :: (c ++ '.' :: rest)) =
      (some (c0 :: (c ++ [('.')])), stripB (pre ++ rest)) := by
  have hsp : ("History: ").toList = ("History:").toList ++ [' '] := rfl
  have hgroup : pre ++ ("History: ").toList ++ c0 :: (c ++ '.' :: rest) =
      (pre ++ ("History:").toList) ++ (' ' :: (c0 :: (c ++ '.' :: rest))) := by
    rw [hsp]
    simp [List.append_assoc]
  have htail : (pre ++ ("History: ").toList ++ c0 :: (c ++ '.' :: rest)).drop (pre.length + 8) =
      ' ' :: (c0 :: (c ++ '.' :: rest)) := by
    rw [hgroup]
    refine List.drop_left' ?_
    rw [List.length_append]
    rfl
  have hws : munch pws (' ' :: (c0 :: (c ++ '.' :: rest))) = 1 := by
    unfold munch
    have hspc : pws (' ') = true := rfl
    simp [List.takeWhile_cons, hspc, hc0]
  have hfi : firstIdxOf ('.') (' ' :: (c0 :: (c ++ '.' :: rest))) = some (c.length + 2) := by
    have e : (' ' :: (c0 :: (c ++ '.' :: rest))) = (' ' :: c0 :: c) ++ '.' :: rest := by
      simp
    rw [e, firstIdxOf_append]
    · have hl : (' ' :: c0 :: c).length = c.length + 2 := by
        simp only [List.length_cons]
      rw [hl]
    · intro hmem
      rcases List.mem_cons.mp hmem with h1 | h2
      · exact absurd h1 (by decide)
      · exact hdot h2
  have htake : ((' ' :: (c0 :: (c ++ '.' :: rest))).drop 1).take (c.length + 2 - 1 + 1) =
      c0 :: (c ++ [('.')]) := by
    show (c0 :: (c ++ '.' :: rest)).take (c.length + 2 - 1 + 1) = c0 :: (c ++ [('.')])
    have e2 : c.length + 2 - 1 + 1 = (c.length + 1) + 1 := by omega
    rw [e2, List.take_succ_cons]
    have e3 : (c ++ '.' :: rest).take (c.length + 1) = c ++ ('.' :: rest).take 1 :=
      take_len_add c ('.' :: rest) 1
    rw [e3]
    rfl
  have hsearch : historySearch (pre ++ ("History: ").toList ++ c0 :: (c ++ '.' :: rest)) =
      some (pre.length, c0 :: (c ++ [('.')]), pre.length + 8 + (c.length + 2) + 1) := by
    unfold historySearch
    rw [hfind]
    dsimp only
    rw [htail, hws, hfi]
    dsimp only
    rw [if_pos (show 1 + 1 ≤ c.length + 2 by omega), htake]
  show extractHistory _ = _
  unfold extractHistory
  rw [hsearch]
  dsimp only
  have h1 : stripB (c0 :: (c ++ [('.')])) = c0 :: (c ++ [('.')]) := stripB_cons_dot c0 c hc0
  have h2 : (pre ++ ("History: ").toList ++ c0 :: (c ++ '.' :: rest)).take pre.length = pre := by
    rw [List.append_assoc]
    exact List.take_left pre _
  have hgroup2 : pre ++ ("History: ").toList ++ c0 :: (c ++ '.' :: rest) =
      (pre ++ ("History: ").toList ++ (c0 :: c) ++ [('.')]) ++ rest := by
    simp [List.append_assoc]
  have h3 : (pre ++ ("History: ").toList ++ c0 :: (c ++ '.' :: rest)).drop
      (pre.length + 8 + (c.length + 2) + 1) = rest := by
    rw [hgroup2]
    refine List.drop_left' ?_
    have hl9 : (("History: ").toList).length = 9 := rfl
    simp [List.length_append, hl9]
    omega
  rw [h1, h2, h3]

/-- Witness for C6 amended at a concrete body with a period-free segment
after the label. -/
theorem C6_amended_witness :
    extractHistory ((("xy ").toList) ++ ("History: ").toList ++
        '1' :: ((("979").toList) ++ '.' :: ((" z").toList))) =
      (some ('1' :: ((("979").toList) ++ [('.')])),
       stripB ((("xy ").toList) ++ ((" z").toList))) :=
  C6_amended (("xy ").toList) (("979").toList) ((" z").toList) ('1') rfl rfl (by decide)

theorem startsW_drop_succ {t : List Char} {i : Nat} {ch : Char} {p : List Char}
    (h : startsW (ch :: p) (t.drop i) = true) : startsW p (t.drop (i + 1)) = true := by
  cases hd : t.drop i with
  | nil => rw [hd] at h; simp [startsW] at h
  | cons a u =>
    rw [hd] at h
    simp only [startsW, Bool.and_eq_true] at h
    have : t.drop (i + 1) = u := by
      have := List.drop_drop 1 i t
      rw [show i + 1 = i + 1 from rfl, ← this, hd]
      rfl
    rw [this]
    exact h.2

theorem litAt_window {t : List Char} {i a b : Nat} {pat : List Char}
    (h : litAt t i pat = true) (hai : a ≤ i) (hib : i + pat.length ≤ b) :
    startsWCI pat (((t.drop a).take (b - a)).drop (i - a)) = true := by
  have e1 : ((t.drop a).take (b - a)).drop (i - a) = (t.drop i).take (b - a - (i - a)) := by
    rw [List.drop_take]
    rw [List.drop_drop]
    rw [show a + (i - a) = i from by omega]
  rw [e1, show b - a - (i - a) = b - i from by omega]
  have hlen : pat.length ≤ b - i := by omega
  exact startsW_imp_CI (startsW_take h hlen)

theorem litAt_negSearch {t : List Char} {st sp : Nat} (hss : st ≤ sp)
    (h : litAt t sp ((" is not violated").toList) = true) :
    negSearch (ctxAround t st sp) = true := by
  have h2 : litAt t (sp + 1) (("is not violated").toList) = true := by
    unfold litAt at h ⊢
    exact startsW_drop_succ h
  have hlen : sp + 1 + 15 ≤ t.length := by
    have hl := startsW_length h
    have : (t.drop sp).length = t.length - sp := List.length_drop sp t
    rw [this] at hl
    have h16 : ((" is not violated").toList).length = 16 := rfl
    omega
  have hcs : startsWCI (("is not violated").toList)
      ((ctxAround t st sp).drop ((sp + 1) - (st - 500))) = true := by
    have h15 : (("is not violated").toList).length = 15 := rfl
    refine litAt_window h2 (by omega) ?_
    rw [h15]
    refine Nat.le_min.mpr ⟨by omega, by omega⟩
  have hcc : containsCI (("is not violated").toList) (ctxAround t st sp) = true :=
    startsWCI_containsCI hcs
  unfold negSearch
  rw [hcc]
  rfl

/-- C8: for every document in which no rule-code, applicable-rule or MCL
pattern matches and every bare `R 400.…` citation is immediately followed by
" is not violated", `extract_violations` returns the empty list — the
negating phrase lands inside each citation's 500-character window and
suppresses it. -/
theorem C8_suppression (t : List Char)
    (h1 : finditer ruleCodeM t = [])
    (h2 : finditer applicableM t = [])
    (h3 : finditer mclM t = [])
    (h4 : ∀ m ∈ finditer r400M t, litAt t m.stop ((" is not violated").toList) = true) :
    extract_violations t = [] := by
  have hs1 : strat1Refs t = [] := by
    unfold strat1Refs
    rw [h1]
    rfl
  have hstep : ∀ m ∈ finditer r400M t,
      (positiveSearch (ctxAround t m.start m.stop) &&
       !negSearch (ctxAround t m.start m.stop)) = false := by
    intro m hm
    have hss : m.start ≤ m.stop :=
      @finditer_mem r400M (fun mr => mr.start ≤ mr.stop)
        (fun b s off len cap hM => Nat.le_add_right off len) t m hm
    have hneg : negSearch (ctxAround t m.start m.stop) = true :=
      litAt_negSearch hss (h4 m hm)
    rw [hneg]
    simp
  have e1 : strat1b t (strat1Refs t) = [] := by
    unfold strat1b
    rw [h2, hs1]
    rfl
  have e2 : strat2 t [] = [] := by
    unfold strat2
    exact foldl_gAdd_nil _ _ (finditer r400M t) [] hstep
  have e3 : strat3 t [] = [] := by
    unfold strat3
    rw [h3]
    rfl
  show strat3 t (strat2 t (strat1b t (strat1Refs t))) = []
  rw [e1, e2, e3]

/-- Witness for C8 at the spec's own example text "R 400.200 is not
violated". -/
theorem C8_suppression_witness :
    (∀ m ∈ finditer r400M (("R 400.200 is not violated").toList),
        litAt (("R 400.200 is not violated").toList) m.stop
          ((" is not violated").toList) = true) ∧
    extract_violations (("R 400.200 is not violated").toList) = [] :=
  ⟨by decide, C8_suppression (("R 400.200 is not violated").toList) rfl rfl rfl (by decide)⟩

end StatCom
